import Mathlib

/-!
Verification of the fin-hub upload ingestion pipeline.

This file shallowly embeds the upload pipeline of the repository
(`src/server/routes/upload/index.ts` together with the finalize route in
`finalize.ts`) and proves properties of the embedded definitions.

Modelling conventions:
* spreadsheet cell values are an inductive `Cell` (missing/null, string, number);
* JS / DuckDB doubles are modelled as exact rationals `ℚ`;
* fallible code returns `Except`;
* the process-wide progress registry is modelled as the list of
  `(progress, status)` writes a job performs, in order.
-/

namespace FinHub

/-- ASCII letter predicate, the `[A-Za-z]` class of the month-header regex. -/
def isAsciiLetter (c : Char) : Bool :=
  (65 ≤ c.toNat && c.toNat ≤ 90) || (97 ≤ c.toNat && c.toNat ≤ 122)

/-- Decimal digit predicate, the `\d` class of the month-header regex. -/
def isDigitCh (c : Char) : Bool :=
  48 ≤ c.toNat && c.toNat ≤ 57

/-- Whitespace predicate, the `\s` class of the month-header regex
(space, tab, LF, VT, FF, CR, NBSP). -/
def isSpaceCh (c : Char) : Bool :=
  c.toNat = 32 || c.toNat = 9 || c.toNat = 10 || c.toNat = 11 ||
  c.toNat = 12 || c.toNat = 13 || c.toNat = 160

/-- Drop a leading run of whitespace, the `\s*` parts of the regex. -/
def dropSpaces : List Char → List Char
  | [] => []
  | c :: cs => if isSpaceCh c then dropSpaces cs else c :: cs

/-- `true` when every character is whitespace, used for a trailing `\s*$`. -/
def allSpaces (cs : List Char) : Bool := cs.all isSpaceCh

/-- The `(\d{2}|\d{4})\s*$` tail of the month-header regex, with the
backtracking semantics of the alternation: two digits followed by
whitespace-to-end win; otherwise exactly four digits followed by
whitespace-to-end. Returns the captured year digits. -/
def parseYearDigits : List Char → Option (List Char)
  | d1 :: d2 :: rest =>
    if isDigitCh d1 && isDigitCh d2 then
      if allSpaces rest then some [d1, d2]
      else
        match rest with
        | d3 :: d4 :: rest2 =>
          if isDigitCh d3 && isDigitCh d4 && allSpaces rest2 then
            some [d1, d2, d3, d4]
          else none
        | _ => none
    else none
  | _ => none

/-- Model of `MONTH_HEADER_RE = /^\s*([A-Za-z]{3})\s*\/\s*(\d{2}|\d{4})\s*$/`
from `upload/index.ts`. Returns the two captures (month letters, year digits)
when the string matches. -/
def matchMonthHeader (cs : List Char) : Option (List Char × List Char) :=
  match dropSpaces cs with
  | a :: b :: c :: rest =>
    if isAsciiLetter a && isAsciiLetter b && isAsciiLetter c then
      match dropSpaces rest with
      | ch :: rest2 =>
        if ch = '/' then
          (parseYearDigits (dropSpaces rest2)).map (fun y => ([a, b, c], y))
        else none
      | [] => none
    else none
  | _ => none

/-- Model of `MONTH_HEADER_RE.test`. -/
def monthHeaderTest (s : String) : Bool := (matchMonthHeader s.data).isSome

/-- The `BRAZILIAN_TO_ENGLISH_MONTHS` record from `upload/index.ts`, as an
association list. -/
def BRAZILIAN_TO_ENGLISH_MONTHS : List (String × String) :=
  [("Jan", "Jan"), ("Fev", "Feb"), ("Mar", "Mar"), ("Abr", "Apr"),
   ("Mai", "May"), ("Jun", "Jun"), ("Jul", "Jul"), ("Ago", "Aug"),
   ("Set", "Sep"), ("Out", "Oct"), ("Nov", "Nov"), ("Dez", "Dec")]

/-- Model of the record lookup `BRAZILIAN_TO_ENGLISH_MONTHS[month]`. -/
def lookupBrMonth (m : String) : Option String :=
  (BRAZILIAN_TO_ENGLISH_MONTHS.find? (fun p => p.1 == m)).map (·.2)

/-- Model of `convertBrazilianDateToEnglish` from `upload/index.ts`: if the
string matches the month-header grammar and the captured month is a Brazilian
month key, rebuild `englishMonth/year`; otherwise return the input unchanged. -/
def convertBrazilianDateToEnglish (s : String) : String :=
  match matchMonthHeader s.data with
  | none => s
  | some (m, y) =>
    match lookupBrMonth (String.mk m) with
    | none => s
    | some eng => String.mk (eng.data ++ '/' :: y)

/-- Model of the `'%b'` English month-abbreviation table used by DuckDB
`strptime`, as a decision chain. -/
def lookupEngMonth (m : String) : Option Nat :=
  if m = "Jan" then some 1
  else if m = "Feb" then some 2
  else if m = "Mar" then some 3
  else if m = "Apr" then some 4
  else if m = "May" then some 5
  else if m = "Jun" then some 6
  else if m = "Jul" then some 7
  else if m = "Aug" then some 8
  else if m = "Sep" then some 9
  else if m = "Oct" then some 10
  else if m = "Nov" then some 11
  else if m = "Dec" then some 12
  else none

/-- Numeric value of a list of decimal digit characters. -/
def digitsToNat (cs : List Char) : Nat :=
  cs.foldl (fun acc c => 10 * acc + (c.toNat - 48)) 0

/-- Model of DuckDB `strptime(s, '%b/%y')::DATE` (`fourDigitYear = false`) and
`strptime(s, '%b/%Y')::DATE` (`fourDigitYear = true`) as used by the finalize
route. A date is represented as a (month, year) pair — `strptime` defaults the
day to 1, so the pair determines the calendar date. Two-digit years follow the
POSIX pivot rule (00–68 → 2000s, 69–99 → 1900s). `none` models a conversion
error, which aborts the enclosing query. -/
def strptimeMonthYear (s : String) (fourDigitYear : Bool) : Option (Nat × Nat) :=
  match s.splitOn "/" with
  | [m, y] =>
    match lookupEngMonth m with
    | none => none
    | some mn =>
      if fourDigitYear then
        if y.data.length = 4 && y.data.all isDigitCh then
          some (mn, digitsToNat y.data)
        else none
      else
        if y.data.length = 2 && y.data.all isDigitCh then
          let v := digitsToNat y.data
          some (mn, if v ≤ 68 then 2000 + v else 1900 + v)
        else none
  | _ => none

/-- Model of `english.split('/')[1] || ''` from `finalize.ts`. -/
def yearPartOf (s : String) : String :=
  match s.splitOn "/" with
  | _ :: y :: _ => y
  | _ => ""

/-- Model of the format choice `yearPart.length === 4 ? '%b/%Y' : '%b/%y'`
from `finalize.ts`, as a boolean (`true` = `'%b/%Y'`). -/
def fmtFourDigit (s : String) : Bool := (yearPartOf s).length = 4

/-- The calendar date `finalize.ts` computes for a staged date column: convert
the Brazilian header to English, pick the parse pattern from the year part's
digit count, and parse. This populates `dat_ref` for rows of that column. -/
def resolveDatRef (dateCol : String) : Option (Nat × Nat) :=
  let english := convertBrazilianDateToEnglish dateCol
  strptimeMonthYear english (fmtFourDigit english)

/-- The year-digit count a header's grammar match captures (`none` when the
header is not a date header). -/
def yearDigitCount (s : String) : Option Nat :=
  (matchMonthHeader s.data).map (fun p => p.2.length)

/-! ### Lemmas about the month-header grammar -/

lemma isSpaceCh_eq_false_of_isDigitCh {c : Char} (h : isDigitCh c = true) :
    isSpaceCh c = false := by
  simp only [isDigitCh, Bool.and_eq_true, decide_eq_true_eq] at h
  simp only [isSpaceCh, Bool.or_eq_false_iff, decide_eq_false_iff_not]
  omega

lemma isSpaceCh_eq_false_of_isAsciiLetter {c : Char} (h : isAsciiLetter c = true) :
    isSpaceCh c = false := by
  simp only [isAsciiLetter, Bool.or_eq_true, Bool.and_eq_true, decide_eq_true_eq] at h
  simp only [isSpaceCh, Bool.or_eq_false_iff, decide_eq_false_iff_not]
  omega

lemma dropSpaces_cons_of_not_space {c : Char} (h : isSpaceCh c = false) (cs : List Char) :
    dropSpaces (c :: cs) = c :: cs := by
  simp [dropSpaces, h]

lemma parseYearDigits_inv {cs y : List Char} (h : parseYearDigits cs = some y) :
    y.all isDigitCh = true ∧ (y.length = 2 ∨ y.length = 4) := by
  match cs with
  | [] => simp [parseYearDigits] at h
  | [_] => simp [parseYearDigits] at h
  | d1 :: d2 :: rest =>
    simp only [parseYearDigits] at h
    by_cases h12 : isDigitCh d1 && isDigitCh d2
    · rw [if_pos h12] at h
      by_cases hsp : allSpaces rest
      · rw [if_pos hsp] at h
        cases h
        simp only [Bool.and_eq_true] at h12
        simp [List.all, h12.1, h12.2]
      · rw [if_neg hsp] at h
        match rest with
        | [] => simp [allSpaces] at hsp
        | [_] => simp at h
        | d3 :: d4 :: rest2 =>
          simp only [] at h
          by_cases h34 : isDigitCh d3 && isDigitCh d4 && allSpaces rest2
          · rw [if_pos h34] at h
            cases h
            simp only [Bool.and_eq_true] at h12 h34
            simp [List.all, h12.1, h12.2, h34.1.1, h34.1.2]
          · rw [if_neg h34] at h
            exact absurd h (by simp)
    · rw [if_neg h12] at h
      exact absurd h (by simp)

lemma matchMonthHeader_letters_digits (a b c : Char) (y : List Char)
    (ha : isAsciiLetter a = true) (hb : isAsciiLetter b = true)
    (hc : isAsciiLetter c = true)
    (hy : y.all isDigitCh = true) (hlen : y.length = 2 ∨ y.length = 4) :
    matchMonthHeader (a :: b :: c :: '/' :: y) = some ([a, b, c], y) := by
  have hslash : isSpaceCh '/' = false := by decide
  have hya : dropSpaces y = y := by
    match y, hy, hlen with
    | d :: ys, hy, _ =>
      have hd : isDigitCh d = true := by
        simp only [List.all_cons, Bool.and_eq_true] at hy
        exact hy.1
      exact dropSpaces_cons_of_not_space (isSpaceCh_eq_false_of_isDigitCh hd) ys
  have hyear : parseYearDigits y = some y := by
    match y, hy, hlen with
    | [d1, d2], hy, _ =>
      simp only [List.all_cons, List.all_nil, Bool.and_eq_true] at hy
      simp [parseYearDigits, hy.1, hy.2.1, allSpaces]
    | [d1, d2, d3, d4], hy, hlen =>
      simp only [List.all_cons, List.all_nil, Bool.and_eq_true] at hy
      have h3 : isSpaceCh d3 = false := isSpaceCh_eq_false_of_isDigitCh hy.2.2.1
      simp [parseYearDigits, hy.1, hy.2.1, hy.2.2.1, hy.2.2.2.1, allSpaces, h3]
    | [d1, d2, d3], hy, hlen => simp at hlen
    | [d1], hy, hlen => simp at hlen
    | [], hy, hlen => simp at hlen
  rw [matchMonthHeader, dropSpaces_cons_of_not_space (isSpaceCh_eq_false_of_isAsciiLetter ha)]
  dsimp only
  rw [if_pos (by simp [ha, hb, hc]), dropSpaces_cons_of_not_space hslash]
  dsimp only
  rw [if_pos rfl, hya, hyear]
  rfl

lemma matchMonthHeader_inv {cs m y : List Char}
    (h : matchMonthHeader cs = some (m, y)) :
    (∃ a b c, m = [a, b, c] ∧ isAsciiLetter a = true ∧ isAsciiLetter b = true ∧
      isAsciiLetter c = true) ∧
    y.all isDigitCh = true ∧ (y.length = 2 ∨ y.length = 4) := by
  rw [matchMonthHeader] at h
  split at h
  · rename_i a b c rest _
    split at h
    · rename_i habc
      split at h
      · rename_i ch rest2 _
        split at h
        · rename_i hch
          subst hch
          cases hpy : parseYearDigits (dropSpaces rest2) with
          | none => rw [hpy] at h; exact Option.noConfusion h
          | some y' =>
            rw [hpy] at h
            dsimp only [Option.map] at h
            injection h with h
            have hm : m = [a, b, c] := (Prod.mk.injEq .. ▸ h).1.symm
            have hyy : y' = y := (Prod.mk.injEq .. ▸ h).2
            subst hyy
            simp only [Bool.and_eq_true] at habc
            exact ⟨⟨a, b, c, hm, habc.1.1, habc.1.2, habc.2⟩, parseYearDigits_inv hpy⟩
        · exact Option.noConfusion h
      · exact Option.noConfusion h
    · exact Option.noConfusion h
  · exact Option.noConfusion h

lemma lookupBrMonth_mem {m eng : String} (h : lookupBrMonth m = some eng) :
    eng ∈ BRAZILIAN_TO_ENGLISH_MONTHS.map Prod.snd := by
  rw [lookupBrMonth] at h
  cases hf : BRAZILIAN_TO_ENGLISH_MONTHS.find? (fun p => p.1 == m) with
  | none => rw [hf] at h; exact Option.noConfusion h
  | some p =>
    rw [hf] at h
    dsimp only [Option.map] at h
    injection h with h
    exact h ▸ List.mem_map_of_mem Prod.snd (List.mem_of_find?_eq_some hf)

/-- Looking up an English month token in the Brazilian table either misses or
is a fixed point (the five tokens shared by the two languages map to
themselves). -/
lemma lookupBrMonth_english_fix :
    ∀ eng ∈ BRAZILIAN_TO_ENGLISH_MONTHS.map Prod.snd,
      lookupBrMonth eng = none ∨ lookupBrMonth eng = some eng := by decide
/-- Evaluation of the conversion when the header does not match the grammar. -/
lemma convert_eq_self_of_none {t : String} (h : matchMonthHeader t.data = none) :
    convertBrazilianDateToEnglish t = t := by
  unfold convertBrazilianDateToEnglish
  rw [h]

/-- Evaluation of the conversion when the captured month is not Brazilian. -/
lemma convert_eq_self_of_lookup_none {t : String} {m y : List Char}
    (h1 : matchMonthHeader t.data = some (m, y))
    (h2 : lookupBrMonth (String.mk m) = none) :
    convertBrazilianDateToEnglish t = t := by
  unfold convertBrazilianDateToEnglish
  rw [h1]
  dsimp only
  rw [h2]

/-- Evaluation of the conversion when the captured month is a Brazilian key. -/
lemma convert_eq_of_lookup_some {t : String} {m y : List Char} {eng : String}
    (h1 : matchMonthHeader t.data = some (m, y))
    (h2 : lookupBrMonth (String.mk m) = some eng) :
    convertBrazilianDateToEnglish t = String.mk (eng.data ++ '/' :: y) := by
  unfold convertBrazilianDateToEnglish
  rw [h1]
  dsimp only
  rw [h2]

/-- When a header matches the grammar and its month is a Brazilian key, the
converted header matches the grammar again, capturing the English month and
the original year digits. -/
lemma convert_match_some {s : String} {m y : List Char} {eng : String}
    (h1 : matchMonthHeader s.data = some (m, y))
    (h2 : lookupBrMonth (String.mk m) = some eng) :
    matchMonthHeader (convertBrazilianDateToEnglish s).data = some (eng.data, y) := by
  have hy := (matchMonthHeader_inv h1).2
  rw [convert_eq_of_lookup_some h1 h2]
  have hmem := lookupBrMonth_mem h2
  fin_cases hmem <;>
    exact matchMonthHeader_letters_digits _ _ _ y (by decide) (by decide) (by decide)
      hy.1 hy.2

/-- C9: the Brazilian-to-English date-header conversion preserves the year's
digit count, is idempotent, and the converted header parsed with the pattern
chosen from the year's digit count yields the same calendar date that
populates `dat_ref` for that header. -/
theorem C9_date_conversion_roundtrip (s : String) :
    convertBrazilianDateToEnglish (convertBrazilianDateToEnglish s) =
      convertBrazilianDateToEnglish s ∧
    yearDigitCount (convertBrazilianDateToEnglish s) = yearDigitCount s ∧
    resolveDatRef (convertBrazilianDateToEnglish s) = resolveDatRef s := by
  have hidem : convertBrazilianDateToEnglish (convertBrazilianDateToEnglish s) =
      convertBrazilianDateToEnglish s := by
    cases h1 : matchMonthHeader s.data with
    | none =>
      have hs := convert_eq_self_of_none h1
      rw [hs]
      exact hs
    | some p =>
      obtain ⟨m, y⟩ := p
      cases h2 : lookupBrMonth (String.mk m) with
      | none =>
        have hs := convert_eq_self_of_lookup_none h1 h2
        rw [hs]
        exact hs
      | some eng =>
        have hcs := convert_eq_of_lookup_some h1 h2
        have hmatch := convert_match_some h1 h2
        rcases lookupBrMonth_english_fix eng (lookupBrMonth_mem h2) with hfix | hfix
        · exact convert_eq_self_of_lookup_none hmatch hfix
        · rw [convert_eq_of_lookup_some hmatch hfix, hcs]
  refine ⟨hidem, ?_, ?_⟩
  · cases h1 : matchMonthHeader s.data with
    | none =>
      rw [convert_eq_self_of_none h1]
    | some p =>
      obtain ⟨m, y⟩ := p
      cases h2 : lookupBrMonth (String.mk m) with
      | none =>
        rw [convert_eq_self_of_lookup_none h1 h2]
      | some eng =>
        have hmatch := convert_match_some h1 h2
        rw [yearDigitCount, yearDigitCount, hmatch, h1]
        rfl
  · rw [resolveDatRef, resolveDatRef, hidem]

/-! ### Domain constants and cells -/

/-- Modelled from the spec: `REQUIRED_SHEETS` is imported from `utils/types`,
a module missing from the available sources. The spec fixes four
case-sensitive required sheet names and names three of them (`RESULTADO`,
`CONTABIL`, `FICTICIO`, the balance-check sheets); the unnamed fourth sheet is
modelled as `"OUTRA"`. -/
def REQUIRED_SHEETS : List String := ["RESULTADO", "CONTABIL", "FICTICIO", "OUTRA"]

/-- Modelled from the spec: `SEGMENTOS` is imported from `utils/types`, a
module missing from the available sources. The members shown in the spec and
in the error-handling documentation are used. -/
def SEGMENTOS : List String :=
  ["Empresas I", "Empresas II", "Empresas III", "Select", "Prospera"]

/-- A spreadsheet cell as the pipeline sees it: missing (JS `null` or
`undefined`), a string, or a finite number (doubles modelled as exact
rationals). -/
inductive Cell
  | empty
  | str (s : String)
  | num (q : ℚ)
  deriving DecidableEq

/-- Trim leading and trailing whitespace. -/
def trimChars (cs : List Char) : List Char :=
  (dropSpaces (dropSpaces cs).reverse).reverse

/-- Parse an unsigned JS decimal literal `digits[.digits]` or `.digits`. -/
def parseUnsignedDec (cs : List Char) : Option ℚ :=
  let ip := cs.takeWhile isDigitCh
  let rest := cs.dropWhile isDigitCh
  match rest with
  | [] => if ip = [] then none else some (digitsToNat ip)
  | c :: rest2 =>
    if c = '.' then
      let fp := rest2.takeWhile isDigitCh
      let rest3 := rest2.dropWhile isDigitCh
      if rest3 = [] ∧ (ip ≠ [] ∨ fp ≠ []) then
        some ((digitsToNat ip : ℚ) + (digitsToNat fp : ℚ) / (10 : ℚ) ^ fp.length)
      else none
    else none

/-- Model of JS `Number(string)`: whitespace is trimmed, an empty remainder
coerces to 0, otherwise an optionally signed decimal literal is parsed.
`none` models NaN. Exotic literal forms (hex, exponents, `Infinity`) are
outside the inputs the claims concern and are modelled as NaN. -/
def jsStrToNumber (s : String) : Option ℚ :=
  let t := trimChars s.data
  if t = [] then some 0
  else
    match t with
    | '-' :: rest => (parseUnsignedDec rest).map (fun q => -q)
    | '+' :: rest => parseUnsignedDec rest
    | _ => parseUnsignedDec t

/-- Model of `Number(v)` on a cell; `none` is NaN. `Cell.empty` stands for a
missing cell (`undefined`), whose numeric coercion is NaN. -/
def jsNumberOfCell : Cell → Option ℚ
  | .empty => none
  | .str s => jsStrToNumber s
  | .num q => some q

/-- Model of `v != null ? String(v) : ""`. Numbers are rendered with Lean's
rational printer; for the claims only whether the result is a member of
`SEGMENTOS` matters. -/
def cellToStr : Cell → String
  | .empty => ""
  | .str s => s
  | .num q => toString q

/-! ### Row validation (`parseSheetRows`) -/

/-- A parsed data row: the four business fields, the owning sheet, and the
date-column writes made by the measure loop (later writes shadow earlier
ones, like JS object assignment). -/
structure StagedRow where
  cod : ℚ
  item : String
  seg : String
  filePaths : String
  sheet : String
  vals : List (String × ℚ)
  deriving DecidableEq

/-- Value of `row[col]` of a staged row with the JS semantics used by the
appender: a missing key reads as 0 (`typeof val === "number" ? val : 0`). -/
def StagedRow.get (r : StagedRow) (col : String) : ℚ :=
  match r.vals.reverse.find? (fun p => p.1 == col) with
  | some p => p.2
  | none => 0

/-- A fatal row-validation error (`CriticalError`), carrying the context-bag
fields the claims concern: the business-schema violation and the non-numeric
measure-cell violation of `parseSheetRows`. -/
inductive ParseErr
  | schemaErr (sheet : String) (row : Nat) (field : String)
  | numErr (sheet : String) (row : Nat) (column : String) (actual : String)
  deriving DecidableEq

/-- Cell at a `findIndex` result; a missing header (`-1`) or an index past the
row's end reads as a missing cell. -/
def cellAtIdx (values : List Cell) : Option Nat → Cell
  | none => .empty
  | some i => values.getD i .empty

/-- Model of the `rawRow` construction and `financialRowSchema.parse` of
`parseSheetRows`: `Cod` must coerce to an integral number, `Segmentos` must
belong to the enumeration, the sheet name must be required; the two free-text
fields always coerce to strings. The first violating field in schema key
order is reported with the 1-indexed spreadsheet row `idx + 2`. -/
def validateBusinessRow (headers : List String) (values : List Cell)
    (sheetName : String) (idx : Nat) : Except ParseErr StagedRow :=
  let codC := cellAtIdx values (headers.findIdx? (· == "Cod"))
  let itemC := cellAtIdx values (headers.findIdx? (· == "Itens / Período"))
  let segC := cellAtIdx values (headers.findIdx? (· == "Segmentos"))
  let fileC := cellAtIdx values (headers.findIdx? (· == "File_Paths"))
  match jsNumberOfCell codC with
  | none => .error (.schemaErr sheetName (idx + 2) "Cod")
  | some q =>
    if q.isInt then
      let seg := cellToStr segC
      if seg ∈ SEGMENTOS then
        if sheetName ∈ REQUIRED_SHEETS then
          .ok { cod := q, item := cellToStr itemC, seg := seg,
                filePaths := cellToStr fileC, sheet := sheetName, vals := [] }
        else .error (.schemaErr sheetName (idx + 2) "sheetName")
      else .error (.schemaErr sheetName (idx + 2) "Segmentos")
    else .error (.schemaErr sheetName (idx + 2) "Cod")

/-- Indices of headers matching the date-header grammar
(`dateColIndices` in `parseSheetRows`). -/
def dateColIndices (headers : List String) : List Nat :=
  (List.range headers.length).filter (fun i => monthHeaderTest (headers.getD i ""))

/-- The measure-cell loop of `parseSheetRows`: an empty or missing cell
coerces to 0 without error; otherwise `Number(val)` must be finite, else a
`CriticalError` is raised. The reported row number `i + 2` reuses the
shadowed loop variable `idx` — the date-column index — exactly as the source
does. -/
def parseDateCells (headers : List String) (sheetName : String)
    (values : List Cell) : List Nat → Except ParseErr (List (String × ℚ))
  | [] => .ok []
  | i :: rest => do
    let header := headers.getD i ""
    let pair ←
      match values.getD i Cell.empty with
      | .empty => .ok (header, (0 : ℚ))
      | .num q => .ok (header, q)
      | .str s =>
        if s = "" then .ok (header, (0 : ℚ))
        else
          match jsStrToNumber s with
          | some q => .ok (header, q)
          | none => .error (ParseErr.numErr sheetName (i + 2) header s)
    let rest2 ← parseDateCells headers sheetName values rest
    .ok (pair :: rest2)

/-- One pass of `parseSheetRows` over the buffered data rows, tracking the
0-based data-row index. -/
def parseRowsAux (headers : List String) (sheetName : String) :
    Nat → List (List Cell) → Except ParseErr (List StagedRow)
  | _, [] => .ok []
  | idx, values :: rest => do
    let core ← validateBusinessRow headers values sheetName idx
    let vals ← parseDateCells headers sheetName values (dateColIndices headers)
    let rows ← parseRowsAux headers sheetName (idx + 1) rest
    .ok ({ core with vals := vals } :: rows)

/-- Model of `parseSheetRows` from `upload/index.ts`. -/
def parseSheetRows (headers : List String) (rowsBuffer : List (List Cell))
    (sheetName : String) : Except ParseErr (List StagedRow) :=
  parseRowsAux headers sheetName 0 rowsBuffer

/-- Business headers plus one date column, as in the required sheets. -/
def c7Headers : List String :=
  ["Cod", "Itens / Período", "Segmentos", "File_Paths", "Jan/25"]

/-- C7: an empty or null measure cell coerces to zero without error; a
non-empty non-numeric measure cell aborts with a fatal error naming the
sheet, the column header and the offending value — but the reported "row" is
the date-column index plus 2 (here 6, from column index 4), not the 1-indexed
spreadsheet row of the data row (here 2): the source reuses the shadowed loop
variable `idx`. -/
theorem C7_measure_cell_validation :
    parseSheetRows c7Headers
        [[.num 1, .str "a", .str "Empresas I", .str "p", .str "abc"]]
        "RESULTADO"
      = .error (.numErr "RESULTADO" 6 "Jan/25" "abc") ∧
    (0 : Nat) + 2 ≠ 6 ∧
    parseSheetRows c7Headers
        [[.num 1, .str "a", .str "Empresas I", .str "p", .empty]]
        "RESULTADO"
      = .ok [⟨1, "a", "Empresas I", "p", "RESULTADO", [("Jan/25", 0)]⟩] :=
  ⟨rfl, by decide, rfl⟩

/-! ### Staging writer (`insertRowsToDb`) -/

/-- A row of the staging table `preview_raw` (and of the parquet artifact it
is copied to): the five business columns plus one double per table date
column, positional. -/
structure TableRow where
  cod : ℚ
  item : String
  seg : String
  filePaths : String
  sheet : String
  nums : List ℚ
  deriving DecidableEq

/-- JS `Math.round` (half-up, toward positive infinity). -/
def jsRound (q : ℚ) : ℤ := Rat.floor (q + 1 / 2)

/-- Value of a named column in a staging-table row (0 when the column is not
part of the table, which cannot happen for rows the model builds). -/
def colVal (tableCols : List String) (r : TableRow) (c : String) : ℚ :=
  match (tableCols.zip r.nums).find? (fun p => p.1 == c) with
  | some p => p.2
  | none => 0

/-- One appender round of `insertRowsToDb`: five business values plus one
double per current-sheet date column are appended positionally; `endRow`
succeeds exactly when the number of appended values matches the table's
arity. A failed row is not appended (caught and counted invalid). -/
def appendOne (tableArity : Nat) (sheetDateCols : List String) (r : StagedRow) :
    Option TableRow :=
  if sheetDateCols.length = tableArity then
    some ⟨r.cod, r.item, r.seg, r.filePaths, r.sheet, sheetDateCols.map r.get⟩
  else none

/-- The staging progress write `20 + Math.round((validCount / rows.length) * 70)`. -/
def checkpointVal (v n : Nat) : ℤ := 20 + jsRound ((v : ℚ) / (n : ℚ) * 70)

/-- The appender loop of `insertRowsToDb`: valid and invalid counts, appended
rows, and the progress checkpoint written after every 100 processed rows. -/
def insertAux (tableArity : Nat) (cols : List String) (n : Nat) :
    List StagedRow → Nat → Nat → List TableRow × Nat × Nat × List ℤ
  | [], v, inv => ([], v, inv, [])
  | r :: rest, v, inv =>
    match appendOne tableArity cols r with
    | some tr =>
      let v2 := v + 1
      let ws := if (v2 + inv) % 100 = 0 then [checkpointVal v2 n] else []
      let res := insertAux tableArity cols n rest v2 inv
      (tr :: res.1, res.2.1, res.2.2.1, ws ++ res.2.2.2)
    | none =>
      let inv2 := inv + 1
      let ws := if (v + inv2) % 100 = 0 then [checkpointVal v n] else []
      let res := insertAux tableArity cols n rest v inv2
      (res.1, res.2.1, res.2.2.1, ws ++ res.2.2.2)

/-- Model of `insertRowsToDb` from `upload/index.ts`: returns the appended
rows, the valid and invalid counts, and the checkpoint progress writes. -/
def insertRowsToDb (tableArity : Nat) (cols : List String) (rows : List StagedRow) :
    List TableRow × Nat × Nat × List ℤ :=
  insertAux tableArity cols rows.length rows 0 0

/-! ### Balance validator (`validateSheetBalance`) -/

/-- Membership in the three balance sheets; other sheets are filtered out of
the balance query. -/
def sheetInBalance (s : String) : Bool :=
  s == "RESULTADO" || s == "CONTABIL" || s == "FICTICIO"

/-- Per-sheet sum over the (code, segment) group for one date column:
`SUM(CASE WHEN sheet_name = _ THEN value ELSE 0 END)` of the pivoted query. -/
def sumSheet (tableCols : List String) (rows : List TableRow) (sheetName : String)
    (cod : ℚ) (seg : String) (c : String) : ℚ :=
  ((rows.filter (fun r => r.sheet == sheetName && r.cod == cod && r.seg == seg)).map
    (fun r => colVal tableCols r c)).sum

/-- The distinct (code, segment) groups among rows of the three balance
sheets (`GROUP BY cod, segmentos`). -/
def balancePairs (rows : List TableRow) : List (ℚ × String) :=
  ((rows.filter (fun r => sheetInBalance r.sheet)).map (fun r => (r.cod, r.seg))).dedup

/-- `resultado − (contabil + ficticio)` for one (code, segment, date) triple. -/
def diffOf (tableCols : List String) (rows : List TableRow)
    (cod : ℚ) (seg : String) (c : String) : ℚ :=
  sumSheet tableCols rows "RESULTADO" cod seg c -
    (sumSheet tableCols rows "CONTABIL" cod seg c +
      sumSheet tableCols rows "FICTICIO" cod seg c)

/-- One row of the imbalance report: the triple, the three sums and the
difference. -/
structure Imbalance where
  cod : ℚ
  seg : String
  month : String
  resultado : ℚ
  contabil : ℚ
  fict : ℚ
  diff : ℚ
  deriving DecidableEq

/-- The triples the balance query reports: every (code, segment) group of the
three balance sheets crossed with every date column, kept when
`|resultado − (contabil + ficticio)| > 0.01`. -/
def imbalancesOf (tableCols : List String) (rows : List TableRow)
    (dateColumns : List String) : List Imbalance :=
  (balancePairs rows).flatMap fun p =>
    dateColumns.filterMap fun c =>
      if |diffOf tableCols rows p.1 p.2 c| > 1 / 100 then
        some ⟨p.1, p.2, c,
          sumSheet tableCols rows "RESULTADO" p.1 p.2 c,
          sumSheet tableCols rows "CONTABIL" p.1 p.2 c,
          sumSheet tableCols rows "FICTICIO" p.1 p.2 c,
          diffOf tableCols rows p.1 p.2 c⟩
      else none

/-- Descending order on the absolute difference (`ORDER BY abs_diff DESC`). -/
abbrev imbRel (a b : Imbalance) : Prop := |b.diff| ≤ |a.diff|

instance : IsTotal Imbalance imbRel := ⟨fun a b => le_total |b.diff| |a.diff|⟩

instance : IsTrans Imbalance imbRel := ⟨fun _ _ _ hab hbc => le_trans hbc hab⟩

/-- Sort the imbalance report by descending absolute difference. -/
def sortImbalances (l : List Imbalance) : List Imbalance :=
  l.insertionSort imbRel

/-- The fatal balance error: the total imbalance count and the full sorted
report (`Found N imbalance(s)` plus the `{ imbalances }` context bag). -/
structure BalanceErr where
  count : Nat
  imbalances : List Imbalance
  deriving DecidableEq

/-- A fatal processing error of `processFile`. `copyNoTable` models the
`COPY` of a staging table that no sheet ever created; `balanceQuery` models
the binder failure of the balance query when it names a date column the
artifact does not have. -/
inductive ProcErr
  | rowError (e : ParseErr)
  | copyNoTable
  | balanceQuery (column : String)
  | balance (e : BalanceErr)
  | missingSheets (sheets : List String)
  deriving DecidableEq

/-- Model of `validateSheetBalance` from `upload/index.ts`: no date columns
means no check; a date column missing from the artifact fails the query;
otherwise the imbalance report is computed, and a non-empty report is a fatal
error carrying its length and the sorted report. -/
def validateSheetBalance (tableCols : List String) (rows : List TableRow)
    (dateColumns : List String) : Except ProcErr Unit :=
  if dateColumns.isEmpty then .ok ()
  else
    match dateColumns.find? (fun c => !(tableCols.contains c)) with
    | some c => .error (.balanceQuery c)
    | none =>
      let imbs := sortImbalances (imbalancesOf tableCols rows dateColumns)
      if imbs.isEmpty then .ok ()
      else .error (.balance ⟨imbs.length, imbs⟩)

/-! ### The per-file pipeline (`processFile`) -/

/-- One worksheet of the uploaded workbook: its name, its trimmed first-row
header strings, and its buffered data rows. -/
structure Sheet where
  name : String
  headers : List String
  rows : List (List Cell)

/-- Job status values of the progress registry. -/
inductive JobStatus
  | processing
  | done
  | error
  deriving DecidableEq

/-- The per-sheet progress write
`15 + Math.round((REQUIRED_SHEETS.indexOf(sheetName) / REQUIRED_SHEETS.length) * 5)`. -/
def bannerVal (name : String) : ℤ :=
  15 + jsRound ((REQUIRED_SHEETS.indexOf name : ℚ) / (REQUIRED_SHEETS.length : ℚ) * 5)

/-- JS `Set.add`: append when not yet present. -/
def addUnique (l : List String) (x : String) : List String :=
  if x ∈ l then l else l ++ [x]

/-- The mutable state of `processFile`'s sheet loop. -/
structure ProcState where
  found : List String
  allDate : List String
  table : Option (List String)
  rows : List TableRow
  valid : Nat
  invalid : Nat
  trace : List (ℤ × JobStatus)
  err : Option ParseErr

/-- One iteration of the worksheet loop of `processFile`: skip non-required
sheets; record the sheet as found and write its banner progress; skip sheets
with no headers or no data rows; collect the sheet's date headers into the
running union; create the staging table from the *current* sheet's date
headers if not yet created; parse the rows (a fatal error stops the job);
append them. -/
def stepSheet (st : ProcState) (s : Sheet) : ProcState :=
  if s.name ∈ REQUIRED_SHEETS then
    let st1 := { st with
      found := st.found ++ [s.name],
      trace := st.trace ++ [(bannerVal s.name, JobStatus.processing)] }
    if s.headers.isEmpty || s.rows.isEmpty then st1
    else
      let dateHeaders := s.headers.filter monthHeaderTest
      let st2 := { st1 with allDate := dateHeaders.foldl addUnique st1.allDate }
      let tcols := st2.table.getD dateHeaders
      let st3 := { st2 with table := some tcols }
      match parseSheetRows s.headers s.rows s.name with
      | .error e => { st3 with err := some e }
      | .ok parsed =>
        let res := insertRowsToDb tcols.length dateHeaders parsed
        { st3 with
          rows := st3.rows ++ res.1,
          valid := st3.valid + res.2.1,
          invalid := st3.invalid + res.2.2.1,
          trace := st3.trace ++ res.2.2.2.map (fun w => (w, JobStatus.processing)) }
  else st

/-- The worksheet loop: a thrown row error aborts the remaining sheets. -/
def processSheets : List Sheet → ProcState → ProcState
  | [], st => st
  | s :: rest, st =>
    if st.err.isSome then st else processSheets rest (stepSheet st s)

instance {ε α : Type _} [DecidableEq ε] [DecidableEq α] :
    DecidableEq (Except ε α) := fun a b =>
  match a, b with
  | .error e, .error f =>
    if h : e = f then .isTrue (congrArg Except.error h)
    else .isFalse (fun hh => h (Except.error.injEq .. ▸ hh))
  | .ok x, .ok y =>
    if h : x = y then .isTrue (congrArg Except.ok h)
    else .isFalse (fun hh => h (Except.ok.injEq .. ▸ hh))
  | .error _, .ok _ => .isFalse (fun hh => Except.noConfusion hh)
  | .ok _, .error _ => .isFalse (fun hh => Except.noConfusion hh)

/-- Everything observable about one processed upload: the outcome (the
artifact's date columns and rows on success), the ordered progress writes,
whether the artifact file is still on disk afterwards, and the loop state
(found sheets, date-header union, staging-table columns, counts). -/
structure ProcResult where
  result : Except ProcErr (List String × List TableRow)
  trace : List (ℤ × JobStatus)
  fileOnDisk : Bool
  found : List String
  allDate : List String
  table : Option (List String)
  staged : List TableRow
  valid : Nat
  invalid : Nat
  deriving DecidableEq

/-- The loop state at job start, after the initial `updateProgress(10)`. -/
def initState : ProcState :=
  ⟨[], [], none, [], 0, 0, [((10 : ℤ), JobStatus.processing)], none⟩

/-- Model of `processFile` from `upload/index.ts`: run the sheet loop, copy
the staging table to the parquet artifact (failing when no sheet created the
table), run the balance validation over the union of all date headers, write
progress 95, then fail if any required sheet was never encountered, else
finish with progress 100. Every error path resets progress to 0 with status
`error` and removes the artifact file. -/
def processFile (wb : List Sheet) : ProcResult :=
  let st := processSheets wb initState
  match st.err with
  | some e =>
    ⟨.error (.rowError e), st.trace ++ [(0, .error)], false,
      st.found, st.allDate, st.table, st.rows, st.valid, st.invalid⟩
  | none =>
    match st.table with
    | none =>
      ⟨.error .copyNoTable, st.trace ++ [(0, .error)], false,
        st.found, st.allDate, st.table, st.rows, st.valid, st.invalid⟩
    | some tcols =>
      match validateSheetBalance tcols st.rows st.allDate with
      | .error e =>
        ⟨.error e, st.trace ++ [(0, .error)], false,
          st.found, st.allDate, st.table, st.rows, st.valid, st.invalid⟩
      | .ok _ =>
        let missing := REQUIRED_SHEETS.filter (fun s => !(st.found.contains s))
        if missing.isEmpty then
          ⟨.ok (tcols, st.rows), st.trace ++ [(95, .processing), (100, .done)], true,
            st.found, st.allDate, st.table, st.rows, st.valid, st.invalid⟩
        else
          ⟨.error (.missingSheets missing),
            st.trace ++ [(95, .processing), (0, .error)], false,
            st.found, st.allDate, st.table, st.rows, st.valid, st.invalid⟩

/-! ### Concrete workbooks -/

/-- Business headers plus the two date columns `Jan/25`, `Fev/25`. -/
def hdrsJanFev : List String :=
  ["Cod", "Itens / Período", "Segmentos", "File_Paths", "Jan/25", "Fev/25"]

/-- A valid business row with one measure value (for `c7Headers`-shaped sheets). -/
def rowJan (q : ℚ) : List Cell := [.num 1, .str "a", .str "Empresas I", .str "p", .num q]

/-- Workbook whose first data-bearing sheet has date column `Jan/25` only,
while `CONTABIL` also has `Fev/25`. -/
def c3Workbook : List Sheet :=
  [⟨"RESULTADO", c7Headers, [rowJan 5]⟩,
   ⟨"CONTABIL", hdrsJanFev, [[.num 1, .str "a", .str "Empresas I", .str "p", .num 5, .num 7]]⟩,
   ⟨"FICTICIO", c7Headers, [rowJan 0]⟩,
   ⟨"OUTRA", c7Headers, [rowJan 0]⟩]

/-- C3: the staging table is created from the FIRST data-bearing sheet's date
headers, not from the union of the date columns of all processed sheets: on
`c3Workbook` the table has columns `["Jan/25"]` while the union is
`["Jan/25", "Fev/25"]`; the `CONTABIL` row (6 date-less columns vs the
table's arity) fails to append and is silently counted invalid instead of
being zero-filled, and the balance query over the union then fails on the
column `Fev/25` missing from the artifact. -/
theorem C3_staging_schema_not_union :
    (processFile c3Workbook).table = some ["Jan/25"] ∧
    (processFile c3Workbook).allDate = ["Jan/25", "Fev/25"] ∧
    (processFile c3Workbook).table ≠ some (processFile c3Workbook).allDate ∧
    (processFile c3Workbook).invalid = 1 ∧
    (processFile c3Workbook).result = .error (.balanceQuery "Fev/25") :=
  ⟨rfl, rfl, by decide, rfl, rfl⟩

/-- Workbook containing only a `RESULTADO` sheet with a non-zero value: three
required sheets are missing, but the balance check fails first. -/
def c6Workbook : List Sheet := [⟨"RESULTADO", c7Headers, [rowJan 100]⟩]

/-- Discriminator for the missing-sheets error. -/
def isMissingSheetsErr : ProcErr → Bool
  | .missingSheets _ => true
  | _ => false

/-- C6 (counterexample): a workbook lacking required sheets can fail with a
balance error instead — the balance validation runs before the missing-sheet
check, so the raised critical error does not list the missing sheet names. -/
theorem C6_counterexample :
    (processFile c6Workbook).result =
      .error (.balance ⟨1, [⟨1, "Empresas I", "Jan/25", 100, 0, 0, 100⟩]⟩) ∧
    REQUIRED_SHEETS.filter
        (fun s => !((processFile c6Workbook).found.contains s)) =
      ["CONTABIL", "FICTICIO", "OUTRA"] ∧
    isMissingSheetsErr (.balance ⟨1, [⟨1, "Empresas I", "Jan/25", 100, 0, 0, 100⟩]⟩)
      = false :=
  ⟨by with_unfolding_all rfl, by with_unfolding_all rfl, rfl⟩

/-- The spec's job-wide ordering guarantee: each progress write does not
decrease, except an explicit reset to 0 with status `error`. -/
def specMonotone (trace : List (ℤ × JobStatus)) : Prop :=
  List.Chain' (fun a b => a.1 ≤ b.1 ∨ (b.1 = 0 ∧ b.2 = JobStatus.error)) trace

/-- Two empty required sheets, in an order that reverses `REQUIRED_SHEETS`. -/
def c8Workbook : List Sheet := [⟨"CONTABIL", [], []⟩, ⟨"RESULTADO", [], []⟩]

/-- C8 (counterexample): sheet banner writes follow the sheet's index in the
required list, not prior progress — processing `CONTABIL` before `RESULTADO`
writes 16 then 15, a decrease that is not the fatal reset to 0. -/
theorem C8_counterexample :
    (processFile c8Workbook).trace =
      [(10, .processing), (16, .processing), (15, .processing), (0, .error)] ∧
    ¬ specMonotone (processFile c8Workbook).trace := by
  have htr : (processFile c8Workbook).trace =
      [(10, .processing), (16, .processing), (15, .processing), (0, .error)] := by
    with_unfolding_all rfl
  refine ⟨htr, ?_⟩
  intro h
  rw [htr] at h
  simp only [specMonotone, List.chain'_cons, List.chain'_singleton] at h
  rcases h.2.1 with h' | h' <;> omega

/-! ### C1: the balance validator -/

lemma sumSheet_filter_balance (tableCols : List String) (rows : List TableRow)
    (sheetName : String) (hs : sheetInBalance sheetName = true)
    (cod : ℚ) (seg : String) (c : String) :
    sumSheet tableCols (rows.filter (fun r => sheetInBalance r.sheet)) sheetName cod seg c =
      sumSheet tableCols rows sheetName cod seg c := by
  unfold sumSheet
  rw [List.filter_filter]
  have hfil :
      List.filter
          (fun a => a.sheet == sheetName && a.cod == cod && a.seg == seg &&
            sheetInBalance a.sheet) rows =
        List.filter (fun r => r.sheet == sheetName && r.cod == cod && r.seg == seg) rows := by
    apply List.filter_congr
    intro r _
    cases hinner : (r.sheet == sheetName && r.cod == cod && r.seg == seg) with
    | false => simp [hinner]
    | true =>
      simp only [Bool.and_eq_true, beq_iff_eq] at hinner
      simp [hinner.1.1, hinner.1.2, hinner.2, hs]
  rw [hfil]

lemma balancePairs_filter (rows : List TableRow) :
    balancePairs (rows.filter (fun r => sheetInBalance r.sheet)) = balancePairs rows := by
  unfold balancePairs
  rw [List.filter_filter]
  have hfil :
      List.filter (fun a => sheetInBalance a.sheet && sheetInBalance a.sheet) rows =
        List.filter (fun r => sheetInBalance r.sheet) rows := by
    apply List.filter_congr
    intro r _
    cases h : sheetInBalance r.sheet <;> simp [h]
  rw [hfil]

lemma imbalancesOf_filter_balance (tableCols : List String) (rows : List TableRow)
    (dateColumns : List String) :
    imbalancesOf tableCols (rows.filter (fun r => sheetInBalance r.sheet)) dateColumns =
      imbalancesOf tableCols rows dateColumns := by
  unfold imbalancesOf
  rw [balancePairs_filter]
  congr 1
  funext p
  congr 1
  funext c
  simp only [diffOf,
    sumSheet_filter_balance tableCols rows "RESULTADO" (by decide),
    sumSheet_filter_balance tableCols rows "CONTABIL" (by decide),
    sumSheet_filter_balance tableCols rows "FICTICIO" (by decide)]

lemma imbalancesOf_nil (tableCols : List String) (rows : List TableRow) :
    imbalancesOf tableCols rows [] = [] := by
  simp [imbalancesOf]

lemma sortImbalances_eq_nil_iff (l : List Imbalance) :
    sortImbalances l = [] ↔ l = [] := by
  constructor <;> intro h
  · have hperm := List.perm_insertionSort imbRel l
    rw [sortImbalances] at h
    rw [h] at hperm
    exact hperm.symm.eq_nil
  · subst h; rfl

/-- Membership characterization of the imbalance report. -/
lemma mem_imbalancesOf_iff (tableCols : List String) (rows : List TableRow)
    (dateColumns : List String) (i : Imbalance) :
    i ∈ imbalancesOf tableCols rows dateColumns ↔
      ((i.cod, i.seg) ∈ balancePairs rows ∧ i.month ∈ dateColumns ∧
        |diffOf tableCols rows i.cod i.seg i.month| > 1 / 100 ∧
        i.resultado = sumSheet tableCols rows "RESULTADO" i.cod i.seg i.month ∧
        i.contabil = sumSheet tableCols rows "CONTABIL" i.cod i.seg i.month ∧
        i.fict = sumSheet tableCols rows "FICTICIO" i.cod i.seg i.month ∧
        i.diff = diffOf tableCols rows i.cod i.seg i.month) := by
  simp only [imbalancesOf, List.mem_flatMap, List.mem_filterMap]
  constructor
  · rintro ⟨p, hp, c, hc, hif⟩
    by_cases hgt : |diffOf tableCols rows p.1 p.2 c| > 1 / 100
    · rw [if_pos hgt] at hif
      injection hif with hif
      subst hif
      exact ⟨hp, hc, hgt, rfl, rfl, rfl, rfl⟩
    · rw [if_neg hgt] at hif
      exact absurd hif (by simp)
  · rintro ⟨hp, hc, hgt, hres, hct, hf, hd⟩
    refine ⟨(i.cod, i.seg), hp, i.month, hc, ?_⟩
    rw [if_pos hgt]
    cases i
    simp only at hres hct hf hd
    rw [hres, hct, hf, hd]


/-- C1: over a staged artifact, for every (code, segment, date-column)
triple, the balance check classifies the triple as imbalanced exactly when
`|RESULTADO_sum − (CONTABIL_sum + FICTICIO_sum)| > 0.01`, ignoring rows of
other sheets; if at least one triple is imbalanced the upload is rejected
with a fatal error carrying the total imbalance count and the full list of
imbalanced triples sorted by descending absolute difference, and otherwise
the check passes without error. -/
theorem C1_balance_validation (tableCols : List String) (rows : List TableRow)
    (dateColumns : List String) (hsub : ∀ c ∈ dateColumns, c ∈ tableCols) :
    (∀ i, i ∈ imbalancesOf tableCols rows dateColumns ↔
      ((i.cod, i.seg) ∈ balancePairs rows ∧ i.month ∈ dateColumns ∧
        |diffOf tableCols rows i.cod i.seg i.month| > 1 / 100 ∧
        i.resultado = sumSheet tableCols rows "RESULTADO" i.cod i.seg i.month ∧
        i.contabil = sumSheet tableCols rows "CONTABIL" i.cod i.seg i.month ∧
        i.fict = sumSheet tableCols rows "FICTICIO" i.cod i.seg i.month ∧
        i.diff = diffOf tableCols rows i.cod i.seg i.month)) ∧
    imbalancesOf tableCols (rows.filter (fun r => sheetInBalance r.sheet)) dateColumns =
      imbalancesOf tableCols rows dateColumns ∧
    (validateSheetBalance tableCols rows dateColumns = .ok () ↔
      imbalancesOf tableCols rows dateColumns = []) ∧
    (∀ e, validateSheetBalance tableCols rows dateColumns = .error e →
      ∃ b, e = ProcErr.balance b ∧
        b.count = (imbalancesOf tableCols rows dateColumns).length ∧
        List.Perm b.imbalances (imbalancesOf tableCols rows dateColumns) ∧
        List.Sorted imbRel b.imbalances) := by
  refine ⟨mem_imbalancesOf_iff tableCols rows dateColumns,
    imbalancesOf_filter_balance tableCols rows dateColumns, ?_, ?_⟩
  all_goals
    by_cases hnil : dateColumns = []
  case pos =>
    subst hnil
    have hok : validateSheetBalance tableCols rows [] = .ok () := by
      unfold validateSheetBalance; rfl
    rw [hok, imbalancesOf_nil]
    simp
  case neg =>
    have hfind : dateColumns.find? (fun c => !(tableCols.contains c)) = none := by
      rw [List.find?_eq_none]
      intro c hc
      simp [List.elem_iff, hsub c hc]
    have hval : validateSheetBalance tableCols rows dateColumns =
        if (sortImbalances (imbalancesOf tableCols rows dateColumns)).isEmpty then .ok ()
        else .error (.balance
          ⟨(sortImbalances (imbalancesOf tableCols rows dateColumns)).length,
            sortImbalances (imbalancesOf tableCols rows dateColumns)⟩) := by
      unfold validateSheetBalance
      rw [if_neg (by simp [hnil]), hfind]
    rw [hval]
    by_cases hemp : (sortImbalances (imbalancesOf tableCols rows dateColumns)).isEmpty
    · rw [if_pos hemp]
      have : imbalancesOf tableCols rows dateColumns = [] :=
        (sortImbalances_eq_nil_iff _).mp (List.isEmpty_iff.mp hemp)
      simp [this]
    · rw [if_neg hemp]
      have : ¬ imbalancesOf tableCols rows dateColumns = [] := by
        intro h
        exact hemp (by rw [(sortImbalances_eq_nil_iff _).mpr h]; rfl)
      simp [this]
  case pos =>
    subst hnil
    have hok : validateSheetBalance tableCols rows [] = .ok () := by
      unfold validateSheetBalance; rfl
    intro e he
    rw [hok] at he
    exact absurd he (by simp)
  case neg =>
    have hfind : dateColumns.find? (fun c => !(tableCols.contains c)) = none := by
      rw [List.find?_eq_none]
      intro c hc
      simp [List.elem_iff, hsub c hc]
    have hval : validateSheetBalance tableCols rows dateColumns =
        if (sortImbalances (imbalancesOf tableCols rows dateColumns)).isEmpty then .ok ()
        else .error (.balance
          ⟨(sortImbalances (imbalancesOf tableCols rows dateColumns)).length,
            sortImbalances (imbalancesOf tableCols rows dateColumns)⟩) := by
      unfold validateSheetBalance
      rw [if_neg (by simp [hnil]), hfind]
    intro e he
    rw [hval] at he
    by_cases hemp : (sortImbalances (imbalancesOf tableCols rows dateColumns)).isEmpty
    · rw [if_pos hemp] at he
      exact absurd he (by simp)
    · rw [if_neg hemp] at he
      injection he with he
      refine ⟨_, he.symm, ?_, ?_, ?_⟩
      · exact (List.perm_insertionSort imbRel _).length_eq
      · exact List.perm_insertionSort imbRel _
      · exact List.sorted_insertionSort imbRel _

/-- One `RESULTADO` staging row with value 100 in its single date column. -/
def c1Rows : List TableRow := [⟨1, "a", "Empresas I", "p", "RESULTADO", [100]⟩]

/-- Witness for C1 at a concrete artifact with one date column. -/
theorem C1_balance_validation_witness :
    (∀ c ∈ ["Jan/25"], c ∈ ["Jan/25"]) ∧
    (validateSheetBalance ["Jan/25"] c1Rows ["Jan/25"] = .ok () ↔
      imbalancesOf ["Jan/25"] c1Rows ["Jan/25"] = []) :=
  ⟨fun _ hc => hc,
    (C1_balance_validation ["Jan/25"] c1Rows ["Jan/25"] (fun _ hc => hc)).2.2.1⟩

/-! ### The version committer (`finalize.ts`) -/

/-- A committed row of the permanent `preview` table. The team is identified
by its resolved name (the route resolves `teamId` to the name via the
external `teams` table, which is outside this pipeline). -/
structure PrevRow where
  cod : ℚ
  item : String
  seg : String
  filePaths : String
  sheet : String
  team : String
  datRef : Nat × Nat
  value : ℚ
  version : Nat
  deriving DecidableEq

/-- A fatal finalize error: no date columns in the artifact schema, or a
`strptime` failure on a converted date header, which aborts the insert. -/
inductive FinErr
  | noDateCols
  | strptimeFail (column : String)
  deriving DecidableEq

/-- The versions present in the permanent store for a team. -/
def versionsFor (store : List PrevRow) (team : String) : List Nat :=
  (store.filter (fun r => r.team == team)).map (fun r => r.version)

/-- `SELECT (COALESCE(MAX(version), 0) + 1) FROM preview WHERE team_name = ?`. -/
def nextVersion (store : List PrevRow) (team : String) : Nat :=
  (versionsFor store team).foldr max 0 + 1

/-- The distinct version layers of a team in the store. -/
def versionLayers (store : List PrevRow) (team : String) : List Nat :=
  (versionsFor store team).dedup

/-- Resolve every date column of the artifact to a calendar date, failing on
the first column whose converted header `strptime` cannot parse. -/
def resolveAllDates : List String → Except FinErr (List (String × (Nat × Nat)))
  | [] => .ok []
  | c :: rest =>
    match resolveDatRef c with
    | none => .error (.strptimeFail c)
    | some d => do
      let tail ← resolveAllDates rest
      .ok ((c, d) :: tail)

/-- The rows the finalize insert generates: one per (date column, staged row)
pair whose staged value is non-null and non-zero
(`WHERE "col" IS NOT NULL AND "col" != 0`), carrying the resolved date, the
value, the target team and the computed version. -/
def generateRows (tableCols : List String) (rows : List TableRow)
    (resolved : List (String × (Nat × Nat))) (team : String) (v : Nat) :
    List PrevRow :=
  resolved.flatMap fun cd =>
    rows.filterMap fun r =>
      if colVal tableCols r cd.1 ≠ 0 then
        some ⟨r.cod, r.item, r.seg, r.filePaths, r.sheet, team, cd.2,
          colVal tableCols r cd.1, v⟩
      else none

/-- Model of the finalize route (`finalize.ts`): re-derive the date columns
from the artifact schema, compute the next version for the team, resolve each
date header, and append the generated rows to the permanent store in one
insert. Returns the new store and the assigned version. -/
def finalize (store : List PrevRow) (tableCols : List String)
    (rows : List TableRow) (team : String) :
    Except FinErr (List PrevRow × Nat) :=
  let dateCols := tableCols.filter monthHeaderTest
  if dateCols.isEmpty then .error .noDateCols
  else
    let v := nextVersion store team
    match resolveAllDates dateCols with
    | .error e => .error e
    | .ok resolved => .ok (store ++ generateRows tableCols rows resolved team v, v)

/-! ### Lemmas about finalize -/

lemma finalize_ok_inv {store : List PrevRow} {tableCols : List String}
    {rows : List TableRow} {team : String} {store1 : List PrevRow} {v1 : Nat}
    (h : finalize store tableCols rows team = .ok (store1, v1)) :
    v1 = nextVersion store team ∧
    ∃ resolved, resolveAllDates (tableCols.filter monthHeaderTest) = .ok resolved ∧
      store1 = store ++ generateRows tableCols rows resolved team v1 := by
  simp only [finalize] at h
  by_cases hemp : (tableCols.filter monthHeaderTest).isEmpty
  · rw [if_pos hemp] at h
    exact absurd h (by simp)
  · rw [if_neg hemp] at h
    cases hres : resolveAllDates (tableCols.filter monthHeaderTest) with
    | error e => rw [hres] at h; exact absurd h (by simp)
    | ok resolved =>
      rw [hres] at h
      injection h with h
      have hs := (Prod.mk.injEq .. ▸ h).1
      have hv := (Prod.mk.injEq .. ▸ h).2
      refine ⟨hv.symm, resolved, rfl, ?_⟩
      rw [← hs, hv]

lemma le_foldr_max (l : List Nat) : ∀ w ∈ l, w ≤ l.foldr max 0 := by
  induction l with
  | nil => intro w hw; simp at hw
  | cons a t ih =>
    intro w hw
    rcases List.mem_cons.mp hw with rfl | hw
    · exact le_max_left _ _
    · exact le_trans (ih w hw) (le_max_right _ _)

lemma foldr_max_mem (l : List Nat) (h : l ≠ []) : l.foldr max 0 ∈ l := by
  induction l with
  | nil => exact absurd rfl h
  | cons a t ih =>
    cases t with
    | nil => simp
    | cons b t2 =>
      rcases le_total (List.foldr max 0 (b :: t2)) a with hle | hle
      · rw [show List.foldr max 0 (a :: b :: t2) = max a (List.foldr max 0 (b :: t2)) from rfl,
          max_eq_left hle]
        exact List.mem_cons_self a _
      · rw [show List.foldr max 0 (a :: b :: t2) = max a (List.foldr max 0 (b :: t2)) from rfl,
          max_eq_right hle]
        exact List.mem_cons_of_mem a (ih (by simp))

lemma foldr_max_append (l1 l2 : List Nat) :
    (l1 ++ l2).foldr max 0 = max (l1.foldr max 0) (l2.foldr max 0) := by
  induction l1 with
  | nil => simp
  | cons a t ih =>
    show max a ((t ++ l2).foldr max 0) = max (max a (t.foldr max 0)) (l2.foldr max 0)
    rw [ih, max_assoc]

lemma foldr_max_const (l : List Nat) (v : Nat) (hne : l ≠ []) (hall : ∀ w ∈ l, w = v) :
    l.foldr max 0 = v := by
  induction l with
  | nil => exact absurd rfl hne
  | cons a t ih =>
    have ha : a = v := hall a (by simp)
    cases t with
    | nil => simp [ha]
    | cons b t2 =>
      have ht := ih (by simp) (fun w hw => hall w (List.mem_cons_of_mem a hw))
      show max a (List.foldr max 0 (b :: t2)) = v
      rw [ha, ht, max_self]

lemma versionsFor_append (l1 l2 : List PrevRow) (team : String) :
    versionsFor (l1 ++ l2) team = versionsFor l1 team ++ versionsFor l2 team := by
  simp [versionsFor]

lemma versionsFor_of_all_team {l : List PrevRow} {team : String}
    (h : ∀ p ∈ l, p.team = team) :
    versionsFor l team = l.map (fun p => p.version) := by
  unfold versionsFor
  rw [List.filter_eq_self.mpr]
  intro p hp
  simp [h p hp]

lemma generateRows_mem {tableCols : List String} {rows : List TableRow}
    {resolved : List (String × (Nat × Nat))} {team : String} {v : Nat} :
    ∀ p ∈ generateRows tableCols rows resolved team v,
      p.team = team ∧ p.version = v ∧ p.value ≠ 0 ∧
      ∃ cd ∈ resolved, ∃ r ∈ rows,
        colVal tableCols r cd.1 ≠ 0 ∧
        p = ⟨r.cod, r.item, r.seg, r.filePaths, r.sheet, team, cd.2,
              colVal tableCols r cd.1, v⟩ := by
  intro p hp
  simp only [generateRows, List.mem_flatMap, List.mem_filterMap] at hp
  obtain ⟨cd, hcd, r, hr, hif⟩ := hp
  by_cases hval : colVal tableCols r cd.1 ≠ 0
  · rw [if_pos hval] at hif
    injection hif with hif
    subst hif
    exact ⟨rfl, rfl, hval, cd, hcd, r, hr, hval, rfl⟩
  · rw [if_neg hval] at hif
    exact absurd hif (by simp)

lemma generateRows_mem_of {tableCols : List String} {rows : List TableRow}
    {resolved : List (String × (Nat × Nat))} {team : String} {v : Nat}
    (cd : String × (Nat × Nat)) (r : TableRow)
    (hcd : cd ∈ resolved) (hr : r ∈ rows) (hval : colVal tableCols r cd.1 ≠ 0) :
    (⟨r.cod, r.item, r.seg, r.filePaths, r.sheet, team, cd.2,
      colVal tableCols r cd.1, v⟩ : PrevRow) ∈
      generateRows tableCols rows resolved team v := by
  simp only [generateRows, List.mem_flatMap, List.mem_filterMap]
  exact ⟨cd, hcd, r, hr, by rw [if_pos hval]⟩

lemma resolveAllDates_ok :
    ∀ {cols : List String} {resolved : List (String × (Nat × Nat))},
      resolveAllDates cols = .ok resolved →
      (∀ c ∈ cols, ∃ d, resolveDatRef c = some d ∧ (c, d) ∈ resolved) ∧
      (∀ cd ∈ resolved, cd.1 ∈ cols ∧ resolveDatRef cd.1 = some cd.2) := by
  intro cols
  induction cols with
  | nil =>
    intro resolved h
    injection h with h
    subst h
    exact ⟨by simp, by simp⟩
  | cons c rest ih =>
    intro resolved h
    rw [resolveAllDates] at h
    cases hresd : resolveDatRef c with
    | none => rw [hresd] at h; exact absurd h (by simp)
    | some d =>
      rw [hresd] at h
      cases htail : resolveAllDates rest with
      | error e =>
        rw [htail] at h
        exact absurd h (by simp [Bind.bind, Except.bind])
      | ok tail =>
        rw [htail] at h
        simp only [Bind.bind, Except.bind] at h
        injection h with h
        subst h
        obtain ⟨ih1, ih2⟩ := ih htail
        constructor
        · intro c2 hc2
          rcases List.mem_cons.mp hc2 with rfl | hc2
          · exact ⟨d, hresd, by simp⟩
          · obtain ⟨d2, hd2, hmem⟩ := ih1 c2 hc2
            exact ⟨d2, hd2, List.mem_cons_of_mem _ hmem⟩
        · intro cd hcd
          rcases List.mem_cons.mp hcd with rfl | hcd
          · exact ⟨by simp, hresd⟩
          · obtain ⟨ha, hb⟩ := ih2 cd hcd
            exact ⟨List.mem_cons_of_mem _ ha, hb⟩

lemma toFinset_const {l : List Nat} {v : Nat} (hne : l ≠ [])
    (hall : ∀ w ∈ l, w = v) : l.toFinset = {v} := by
  ext x
  simp only [List.mem_toFinset, Finset.mem_singleton]
  constructor
  · exact fun hx => hall x hx
  · rintro rfl
    obtain ⟨w, hw⟩ := List.exists_mem_of_ne_nil l hne
    exact hall w hw ▸ hw

/-! ### C2, C4, C5: version assignment, frame effect, sparse insert -/

/-- Concrete artifact schema shared by the finalize scenarios. -/
def finTableCols : List String := ["Jan/25"]

/-- One staged row with the non-zero value 100. -/
def finRows : List TableRow := [⟨1, "a", "Empresas I", "p", "RESULTADO", [100]⟩]

/-- One staged row whose only value is 0 (sparse storage omits it). -/
def finRowsZero : List TableRow := [⟨1, "a", "Empresas I", "p", "RESULTADO", [0]⟩]

/-- The store after finalizing `finRows` into an empty store for team `t`. -/
def finStore1 : List PrevRow :=
  [⟨1, "a", "Empresas I", "p", "RESULTADO", "t", (1, 2025), 100, 1⟩]

/-- C2 (counterexample): a finalize whose staged values are all zero commits
no rows, so the store is unchanged and an immediately following finalize for
the same team assigns the same version 1 again — not the successive version
2 the claim promises. -/
theorem C2_counterexample :
    finalize [] finTableCols finRowsZero "t" = .ok ([], 1) ∧
    finalize ([] : List PrevRow) finTableCols finRowsZero "t" = .ok ([], 1) ∧
    (1 : Nat) ≠ 1 + 1 :=
  ⟨by with_unfolding_all rfl, by with_unfolding_all rfl, by decide⟩

/-- C2 (amended): the version a finalize assigns is strictly greater than
every version the team already has, is 1 when the team has none, and is
`w + 1` for some existing version `w` otherwise; and when the first finalize
actually commits at least one row, an immediately following finalize for the
same team assigns the successor version. -/
theorem C2_next_version (store : List PrevRow) (tableCols : List String)
    (rows : List TableRow) (team : String) (store1 : List PrevRow) (v1 : Nat)
    (h1 : finalize store tableCols rows team = .ok (store1, v1)) :
    (∀ w ∈ versionsFor store team, w < v1) ∧
    (versionsFor store team = [] → v1 = 1) ∧
    (versionsFor store team ≠ [] → ∃ w ∈ versionsFor store team, v1 = w + 1) ∧
    (store1 ≠ store →
      ∀ tableCols2 rows2 store2 v2,
        finalize store1 tableCols2 rows2 team = .ok (store2, v2) → v2 = v1 + 1) := by
  obtain ⟨hv, resolved, hres, hs⟩ := finalize_ok_inv h1
  refine ⟨?_, ?_, ?_, ?_⟩
  · intro w hw
    rw [hv]
    exact Nat.lt_succ_of_le (le_foldr_max _ w hw)
  · intro hnil
    rw [hv]
    unfold nextVersion
    rw [hnil]
    rfl
  · intro hne
    refine ⟨_, foldr_max_mem _ hne, ?_⟩
    rw [hv]
    rfl
  · intro hne tableCols2 rows2 store2 v2 h2
    obtain ⟨hv2, _⟩ := finalize_ok_inv h2
    have hgen : generateRows tableCols rows resolved team v1 ≠ [] := by
      intro hg
      exact hne (by rw [hs, hg, List.append_nil])
    have hvg : versionsFor (generateRows tableCols rows resolved team v1) team =
        (generateRows tableCols rows resolved team v1).map (fun p => p.version) :=
      versionsFor_of_all_team (fun p hp => (generateRows_mem p hp).1)
    have hvgne : versionsFor (generateRows tableCols rows resolved team v1) team ≠ [] := by
      rw [hvg]
      simp [hgen]
    have hvgall :
        ∀ w ∈ versionsFor (generateRows tableCols rows resolved team v1) team, w = v1 := by
      rw [hvg]
      intro w hw
      obtain ⟨p, hp, rfl⟩ := List.mem_map.mp hw
      exact (generateRows_mem p hp).2.1
    have hfg :
        (versionsFor (generateRows tableCols rows resolved team v1) team).foldr max 0 = v1 :=
      foldr_max_const _ _ hvgne hvgall
    rw [hv2]
    unfold nextVersion
    rw [hs, versionsFor_append, foldr_max_append, hfg,
      max_eq_right (by rw [hv]; exact Nat.le_succ _)]

/-- Witness for C2 on a one-row artifact: finalize assigns version 1 to an
empty store, and a second finalize assigns 2 = 1 + 1. -/
theorem C2_next_version_witness :
    finalize [] finTableCols finRows "t" = .ok (finStore1, 1) ∧ (2 : Nat) = 1 + 1 := by
  refine ⟨by with_unfolding_all rfl, ?_⟩
  exact (C2_next_version [] finTableCols finRows "t" finStore1 1
      (by with_unfolding_all rfl)).2.2.2
    (by simp [finStore1]) finTableCols finRows
    (finStore1 ++ [⟨1, "a", "Empresas I", "p", "RESULTADO", "t", (1, 2025), 100, 2⟩]) 2
    (by with_unfolding_all rfl)

/-- C4 (counterexample): an all-zero finalize commits nothing — the store
keeps the same (empty) set of version layers for the team, not one more. -/
theorem C4_counterexample :
    finalize [] finTableCols finRowsZero "t" = .ok ([], 1) ∧
    versionLayers ([] : List PrevRow) "t" = [] ∧
    (versionLayers ([] : List PrevRow) "t").length ≠
      (versionLayers ([] : List PrevRow) "t").length + 1 :=
  ⟨by with_unfolding_all rfl, rfl, by decide⟩

/-- C4 (amended): a successful finalize only appends: the prior store is a
prefix of the new one, every prior row is still present, every added row
carries the target team and the new version, and — when at least one row is
committed — the team gains exactly the one new version layer `v1`, which did
not exist before. -/
theorem C4_commit_frame (store : List PrevRow) (tableCols : List String)
    (rows : List TableRow) (team : String) (store1 : List PrevRow) (v1 : Nat)
    (h : finalize store tableCols rows team = .ok (store1, v1)) :
    store <+: store1 ∧
    (∀ r ∈ store, r ∈ store1) ∧
    (∀ r ∈ store1, r ∉ store → r.team = team ∧ r.version = v1) ∧
    (store1 ≠ store →
      (versionsFor store1 team).toFinset = insert v1 (versionsFor store team).toFinset ∧
      v1 ∉ (versionsFor store team).toFinset ∧
      (versionsFor store1 team).toFinset.card =
        (versionsFor store team).toFinset.card + 1) := by
  obtain ⟨hv, resolved, hres, hs⟩ := finalize_ok_inv h
  subst hs
  have hnotmem : v1 ∉ (versionsFor store team).toFinset := by
    rw [List.mem_toFinset]
    intro hmem
    have := le_foldr_max _ _ hmem
    rw [hv] at this
    exact absurd this (by unfold nextVersion; omega)
  refine ⟨List.prefix_append store _, fun r hr => List.mem_append_left _ hr, ?_, ?_⟩
  · intro r hr hnot
    rcases List.mem_append.mp hr with h' | h'
    · exact absurd h' hnot
    · exact ⟨(generateRows_mem r h').1, (generateRows_mem r h').2.1⟩
  · intro hne
    have hgen : generateRows tableCols rows resolved team v1 ≠ [] := by
      intro hg
      rw [hg, List.append_nil] at hne
      exact hne rfl
    have hvg : versionsFor (generateRows tableCols rows resolved team v1) team =
        (generateRows tableCols rows resolved team v1).map (fun p => p.version) :=
      versionsFor_of_all_team (fun p hp => (generateRows_mem p hp).1)
    have hvgne : versionsFor (generateRows tableCols rows resolved team v1) team ≠ [] := by
      rw [hvg]
      simp [hgen]
    have hset : (versionsFor (store ++ generateRows tableCols rows resolved team v1)
        team).toFinset = insert v1 (versionsFor store team).toFinset := by
      rw [versionsFor_append, List.toFinset_append,
        toFinset_const hvgne (by
          rw [hvg]
          intro w hw
          obtain ⟨p, hp, rfl⟩ := List.mem_map.mp hw
          exact (generateRows_mem p hp).2.1),
        Finset.union_comm, ← Finset.insert_eq]
    exact ⟨hset, hnotmem, by rw [hset, Finset.card_insert_of_not_mem hnotmem]⟩

/-- Witness for C4: finalizing one non-zero row into an empty store keeps the
(empty) prior store as a prefix and creates exactly the version layer 1. -/
theorem C4_commit_frame_witness :
    finalize [] finTableCols finRows "t" = .ok (finStore1, 1) ∧
    ([] : List PrevRow) <+: finStore1 ∧
    (versionsFor finStore1 "t").toFinset =
      insert 1 (versionsFor ([] : List PrevRow) "t").toFinset := by
  have h := C4_commit_frame [] finTableCols finRows "t" finStore1 1
    (by with_unfolding_all rfl)
  exact ⟨by with_unfolding_all rfl, h.1, (h.2.2.2 (by simp [finStore1])).1⟩

/-- C5: a successful finalize appends exactly one committed row per
(staged row, date column) pair whose staged value is non-zero (non-null by
construction of the artifact), carrying the calendar date resolved from the
header, the value, the target team and the newly computed version; and every
appended row arises this way with a non-zero value. -/
theorem C5_sparse_commit (store : List PrevRow) (tableCols : List String)
    (rows : List TableRow) (team : String) (store1 : List PrevRow) (v1 : Nat)
    (h : finalize store tableCols rows team = .ok (store1, v1)) :
    ∃ gen, store1 = store ++ gen ∧
      (∀ c ∈ tableCols.filter monthHeaderTest,
        ∃ d, resolveDatRef c = some d ∧
          ∀ r ∈ rows,
            (colVal tableCols r c ≠ 0 ↔
              (⟨r.cod, r.item, r.seg, r.filePaths, r.sheet, team, d,
                colVal tableCols r c, v1⟩ : PrevRow) ∈ gen)) ∧
      (∀ p ∈ gen, p.team = team ∧ p.version = v1 ∧ p.value ≠ 0 ∧
        ∃ c ∈ tableCols.filter monthHeaderTest, ∃ r ∈ rows,
          resolveDatRef c = some p.datRef ∧ p.value = colVal tableCols r c) := by
  obtain ⟨hv, resolved, hres, hs⟩ := finalize_ok_inv h
  obtain ⟨hall, hmem⟩ := resolveAllDates_ok hres
  refine ⟨_, hs, ?_, ?_⟩
  · intro c hc
    obtain ⟨d, hd, hcd⟩ := hall c hc
    refine ⟨d, hd, ?_⟩
    intro r hr
    constructor
    · intro hval
      exact generateRows_mem_of (c, d) r hcd hr hval
    · intro hmemrow
      exact (generateRows_mem _ hmemrow).2.2.1
  · intro p hp
    obtain ⟨hteam, hver, hval, cd, hcd, r, hr, hv0, hpeq⟩ := generateRows_mem p hp
    obtain ⟨hc1, hc2⟩ := hmem cd hcd
    subst hpeq
    exact ⟨hteam, hver, hval, cd.1, hc1, r, hr, hc2, rfl⟩

/-- Witness for C5 on the one-row artifact. -/
theorem C5_sparse_commit_witness :
    ∃ gen, finStore1 = [] ++ gen ∧
      (∀ c ∈ finTableCols.filter monthHeaderTest,
        ∃ d, resolveDatRef c = some d ∧
          ∀ r ∈ finRows,
            (colVal finTableCols r c ≠ 0 ↔
              (⟨r.cod, r.item, r.seg, r.filePaths, r.sheet, "t", d,
                colVal finTableCols r c, 1⟩ : PrevRow) ∈ gen)) ∧
      (∀ p ∈ gen, p.team = "t" ∧ p.version = 1 ∧ p.value ≠ 0 ∧
        ∃ c ∈ finTableCols.filter monthHeaderTest, ∃ r ∈ finRows,
          resolveDatRef c = some p.datRef ∧ p.value = colVal finTableCols r c) :=
  C5_sparse_commit [] finTableCols finRows "t" finStore1 1 (by with_unfolding_all rfl)

/-! ### Structural lemmas about the sheet loop -/

/-- The required sheet names present in a workbook, in workbook order. -/
def requiredNamesOf (wb : List Sheet) : List String :=
  (wb.map Sheet.name).filter (fun nm => REQUIRED_SHEETS.contains nm)

lemma processSheets_of_isSome {st : ProcState} (h : st.err.isSome) :
    ∀ l : List Sheet, processSheets l st = st
  | [] => rfl
  | _ :: _ => by simp [processSheets, h]

lemma processSheets_append (l1 l2 : List Sheet) :
    ∀ st : ProcState, processSheets (l1 ++ l2) st = processSheets l2 (processSheets l1 st) := by
  induction l1 with
  | nil => intro st; rfl
  | cons s rest ih =>
    intro st
    show processSheets (s :: (rest ++ l2)) st = _
    by_cases hsome : st.err.isSome
    · rw [processSheets, if_pos hsome, show processSheets (s :: rest) st = st from by
        rw [processSheets, if_pos hsome], processSheets_of_isSome hsome]
    · rw [processSheets, if_neg hsome, ih, processSheets]
      rw [if_neg hsome]

lemma stepSheet_found (st : ProcState) (s : Sheet) :
    (stepSheet st s).found =
      st.found ++ if s.name ∈ REQUIRED_SHEETS then [s.name] else [] := by
  obtain ⟨f0, ad, tb, rws, v, iv, tr0, er⟩ := st
  by_cases hreq : s.name ∈ REQUIRED_SHEETS
  · by_cases hempty : (s.headers.isEmpty || s.rows.isEmpty) = true
    · simp [stepSheet, hreq, hempty]
    · cases hp : parseSheetRows s.headers s.rows s.name with
      | error e => simp [stepSheet, hreq, hempty, hp]
      | ok parsed => simp [stepSheet, hreq, hempty, hp]
  · simp [stepSheet, hreq]

lemma requiredNamesOf_cons (s : Sheet) (rest : List Sheet) :
    requiredNamesOf (s :: rest) =
      (if s.name ∈ REQUIRED_SHEETS then [s.name] else []) ++ requiredNamesOf rest := by
  unfold requiredNamesOf
  rw [List.map_cons, List.filter_cons]
  by_cases hreq : s.name ∈ REQUIRED_SHEETS
  · rw [if_pos (List.elem_iff.mpr hreq), if_pos hreq]
    rfl
  · rw [if_neg (fun hc => hreq (List.elem_iff.mp hc)), if_neg hreq]
    rfl

lemma processSheets_found_of_no_err :
    ∀ (l : List Sheet) (st : ProcState), (processSheets l st).err = none →
      (processSheets l st).found = st.found ++ requiredNamesOf l := by
  intro l
  induction l with
  | nil => intro st _; simp [processSheets, requiredNamesOf]
  | cons s rest ih =>
    intro st hend
    by_cases hsome : st.err.isSome
    · rw [processSheets, if_pos hsome] at hend ⊢
      rw [hend] at hsome
      exact absurd hsome (by simp)
    · rw [processSheets, if_neg hsome] at hend ⊢
      rw [ih _ hend, stepSheet_found, List.append_assoc, requiredNamesOf_cons]

/-- All `processFile` outcome branches expose the same loop-state fields. -/
lemma processFile_proj (wb : List Sheet) :
    (processFile wb).found = (processSheets wb initState).found ∧
    (processFile wb).allDate = (processSheets wb initState).allDate ∧
    (processFile wb).table = (processSheets wb initState).table ∧
    (processFile wb).staged = (processSheets wb initState).rows := by
  unfold processFile
  set st := processSheets wb initState with hst
  cases herr : st.err with
  | some e => simp [herr]
  | none =>
    cases htb : st.table with
    | none => simp [herr, htb]
    | some tcols =>
      cases hbal : validateSheetBalance tcols st.rows st.allDate with
      | error e => simp [herr, htb, hbal]
      | ok u =>
        simp only [herr, htb, hbal]
        split <;> simp

lemma validateSheetBalance_no_missing {tc : List String} {rows : List TableRow}
    {cols : List String} {e : ProcErr}
    (h : validateSheetBalance tc rows cols = .error e) :
    ∀ l, e ≠ ProcErr.missingSheets l := by
  intro l hl
  subst hl
  unfold validateSheetBalance at h
  by_cases hnil : cols.isEmpty
  · rw [if_pos hnil] at h
    exact absurd h (by simp)
  · rw [if_neg hnil] at h
    cases hf : cols.find? (fun c => !(tc.contains c)) with
    | some c =>
      rw [hf] at h
      injection h with h
      exact ProcErr.noConfusion h
    | none =>
      rw [hf] at h
      simp only at h
      split at h
      · exact absurd h (by simp)
      · injection h with h
        exact ProcErr.noConfusion h

/-- Case analysis over a whole `processFile` run: either it fails — progress
is reset to 0 as the final write, the artifact file is gone, and a
missing-sheets failure carries exactly the required names absent from the
loop's found set — or it succeeds, the artifact remains, and no required
sheet is missing. -/
lemma processFile_cases (wb : List Sheet) :
    (∃ e, (processFile wb).result = .error e ∧
      (processFile wb).fileOnDisk = false ∧
      (∃ t, (processFile wb).trace = t ++ [(0, JobStatus.error)]) ∧
      (∀ l, e = ProcErr.missingSheets l →
        (processSheets wb initState).err = none ∧
        l = REQUIRED_SHEETS.filter
          (fun s => !((processSheets wb initState).found.contains s)) ∧
        l ≠ [])) ∨
    (∃ a, (processFile wb).result = .ok a ∧
      (processFile wb).fileOnDisk = true ∧
      (processSheets wb initState).err = none ∧
      REQUIRED_SHEETS.filter
        (fun s => !((processSheets wb initState).found.contains s)) = []) := by
  unfold processFile
  set st := processSheets wb initState with hst
  cases herr : st.err with
  | some e =>
    left
    refine ⟨.rowError e, by simp [herr], by simp [herr], ⟨st.trace, by simp [herr]⟩, ?_⟩
    intro l hl
    exact absurd hl (by simp)
  | none =>
    cases htb : st.table with
    | none =>
      left
      refine ⟨.copyNoTable, by simp [herr, htb], by simp [herr, htb],
        ⟨st.trace, by simp [herr, htb]⟩, ?_⟩
      intro l hl
      exact absurd hl (by simp)
    | some tcols =>
      cases hbal : validateSheetBalance tcols st.rows st.allDate with
      | error e2 =>
        left
        refine ⟨e2, by simp [herr, htb, hbal], by simp [herr, htb, hbal],
          ⟨st.trace, by simp [herr, htb, hbal]⟩, ?_⟩
        intro l hl
        exact absurd hl (validateSheetBalance_no_missing hbal l)
      | ok u =>
        simp only [herr, htb, hbal]
        split
        · rename_i hmiss
          right
          exact ⟨(tcols, st.rows), rfl, rfl, trivial, List.isEmpty_iff.mp hmiss⟩
        · rename_i hmiss
          left
          refine ⟨.missingSheets
              (REQUIRED_SHEETS.filter (fun s => !(st.found.contains s))),
            rfl, rfl,
            ⟨st.trace ++ [(95, JobStatus.processing)], by
              rw [List.append_assoc]
              rfl⟩, ?_⟩
          intro l hl
          injection hl with hl
          refine ⟨trivial, hl.symm, ?_⟩
          intro hnil
          rw [hl, hnil] at hmiss
          exact hmiss rfl

/-- Turn the loop's found set into workbook sheet names inside the
missing-sheets filter, given the loop finished without a row error. -/
lemma filter_found_eq_filter_names (wb : List Sheet)
    (herr : (processSheets wb initState).err = none) :
    REQUIRED_SHEETS.filter
        (fun s => !((processSheets wb initState).found.contains s)) =
      REQUIRED_SHEETS.filter (fun nm => !((wb.map Sheet.name).contains nm)) := by
  have hfound : (processSheets wb initState).found = requiredNamesOf wb := by
    have := processSheets_found_of_no_err wb initState herr
    simpa [initState] using this
  rw [hfound]
  apply List.filter_congr
  intro nm hnm
  congr 1
  cases hc : (wb.map Sheet.name).contains nm
  · have hnotin : nm ∉ requiredNamesOf wb := by
      intro hmem
      have hc2 : (List.map Sheet.name wb).contains nm = true :=
        List.elem_iff.mpr (List.mem_of_mem_filter hmem)
      rw [hc] at hc2
      exact Bool.noConfusion hc2
    simpa [List.elem_iff] using hnotin
  · have hin : nm ∈ requiredNamesOf wb := by
      unfold requiredNamesOf
      rw [List.mem_filter]
      exact ⟨List.elem_iff.mp hc, List.elem_iff.mpr hnm⟩
    simpa [List.elem_iff] using hin

/-- C6 (amended): on any fatal processing error no staged artifact file
remains on disk; when the failure is the missing-sheets critical error — the
case in which no earlier fatal error (row validation, copy, balance)
preempted it — the error lists exactly the required sheet names absent from
the workbook, and that list is non-empty; and a workbook lacking a required
sheet never processes successfully. -/
theorem C6_missing_sheets (wb : List Sheet) :
    (∀ e, (processFile wb).result = .error e → (processFile wb).fileOnDisk = false) ∧
    (∀ l, (processFile wb).result = .error (.missingSheets l) →
      l = REQUIRED_SHEETS.filter (fun nm => !((wb.map Sheet.name).contains nm)) ∧
      l ≠ []) ∧
    (∀ a, (processFile wb).result = .ok a →
      REQUIRED_SHEETS.filter (fun nm => !((wb.map Sheet.name).contains nm)) = []) := by
  rcases processFile_cases wb with ⟨e, he, hfile, _, hmiss⟩ | ⟨a, ha, _, herr, hnone⟩
  · refine ⟨fun _ _ => hfile, ?_, ?_⟩
    · intro l hl
      rw [he] at hl
      injection hl with hl
      obtain ⟨herr2, hl2, hne⟩ := hmiss l hl
      rw [filter_found_eq_filter_names wb herr2] at hl2
      exact ⟨hl2, hne⟩
    · intro a2 ha2
      rw [he] at ha2
      exact absurd ha2 (by simp)
  · refine ⟨?_, ?_, ?_⟩
    · intro e2 he2
      rw [ha] at he2
      exact absurd he2 (by simp)
    · intro l hl
      rw [ha] at hl
      exact absurd hl (by simp)
    · intro a2 _
      rw [← filter_found_eq_filter_names wb herr]
      exact hnone

/-- A workbook whose single (balanced, all-zero) sheet leaves three required
sheets missing. -/
def c6WitnessWb : List Sheet := [⟨"RESULTADO", c7Headers, [rowJan 0]⟩]

/-- Witness for C6: the missing-sheets error fires with exactly the three
absent names, and the artifact file is gone. -/
theorem C6_missing_sheets_witness :
    (processFile c6WitnessWb).result =
      .error (.missingSheets ["CONTABIL", "FICTICIO", "OUTRA"]) ∧
    ["CONTABIL", "FICTICIO", "OUTRA"] =
      REQUIRED_SHEETS.filter (fun nm => !((c6WitnessWb.map Sheet.name).contains nm)) ∧
    (processFile c6WitnessWb).fileOnDisk = false := by
  have hres : (processFile c6WitnessWb).result =
      .error (.missingSheets ["CONTABIL", "FICTICIO", "OUTRA"]) := by
    with_unfolding_all rfl
  have h := C6_missing_sheets c6WitnessWb
  exact ⟨hres, (h.2.1 _ hres).1, h.1 _ hres⟩

/-! ### C8: per-phase monotonicity of progress writes -/

lemma jsRound_mono {a b : ℚ} (h : a ≤ b) : jsRound a ≤ jsRound b := by
  unfold jsRound
  apply Rat.le_floor.mpr
  calc ((Rat.floor (a + 1 / 2) : ℤ) : ℚ) ≤ a + 1 / 2 := Rat.le_floor.mp (le_refl _)
    _ ≤ b + 1 / 2 := by linarith

lemma checkpointVal_mono {v v2 n : Nat} (h : v ≤ v2) :
    checkpointVal v n ≤ checkpointVal v2 n := by
  unfold checkpointVal
  have hq : ((v : ℚ) / (n : ℚ) * 70) ≤ ((v2 : ℚ) / (n : ℚ) * 70) := by
    have hvv : (v : ℚ) ≤ (v2 : ℚ) := by exact_mod_cast h
    rw [div_eq_mul_inv, div_eq_mul_inv]
    exact mul_le_mul_of_nonneg_right
      (mul_le_mul_of_nonneg_right hvv (inv_nonneg.mpr (Nat.cast_nonneg n)))
      (by norm_num)
  exact add_le_add_left (jsRound_mono hq) 20

/-- The checkpoint writes of one appender loop are non-decreasing, and all of
them dominate the checkpoint value of the loop's starting valid count. -/
lemma insertAux_writes_chain (tableArity : Nat) (cols : List String) (n : Nat) :
    ∀ (rows : List StagedRow) (v inv : Nat),
      List.Chain' (· ≤ ·) (insertAux tableArity cols n rows v inv).2.2.2 ∧
      (∀ w ∈ (insertAux tableArity cols n rows v inv).2.2.2, checkpointVal v n ≤ w) := by
  intro rows
  induction rows with
  | nil => intro v inv; simp [insertAux]
  | cons r rest ih =>
    intro v inv
    cases happ : appendOne tableArity cols r with
    | some tr =>
      obtain ⟨ihc, ihb⟩ := ih (v + 1) inv
      have hmono : checkpointVal v n ≤ checkpointVal (v + 1) n :=
        checkpointVal_mono (Nat.le_succ v)
      by_cases hmod : (v + 1 + inv) % 100 = 0
      · constructor
        · simp only [insertAux, happ, if_pos hmod]
          apply List.chain'_cons'.mpr
          refine ⟨?_, ihc⟩
          intro b hb
          exact ihb b (List.mem_of_mem_head? hb)
        · intro w hw
          simp only [insertAux, happ, if_pos hmod] at hw
          rcases List.mem_cons.mp hw with rfl | hw
          · exact hmono
          · exact le_trans hmono (ihb w hw)
      · constructor
        · simp only [insertAux, happ, if_neg hmod]
          exact ihc
        · intro w hw
          simp only [insertAux, happ, if_neg hmod] at hw
          exact le_trans hmono (ihb w hw)
    | none =>
      obtain ⟨ihc, ihb⟩ := ih v (inv + 1)
      by_cases hmod : (v + (inv + 1)) % 100 = 0
      · constructor
        · simp only [insertAux, happ, if_pos hmod]
          apply List.chain'_cons'.mpr
          refine ⟨?_, ihc⟩
          intro b hb
          exact ihb b (List.mem_of_mem_head? hb)
        · intro w hw
          simp only [insertAux, happ, if_pos hmod] at hw
          rcases List.mem_cons.mp hw with rfl | hw
          · exact le_refl _
          · exact ihb w hw
      · constructor
        · simp only [insertAux, happ, if_neg hmod]
          exact ihc
        · intro w hw
          simp only [insertAux, happ, if_neg hmod] at hw
          exact ihb w hw

/-- C8 (amended): progress is monotone within each phase, not job-wide: the
staging checkpoint writes of a single `insertRowsToDb` call form a
non-decreasing sequence, and on any fatal error the job's final progress
write is the reset to 0 with status `error`. Job-wide monotonicity fails (see
the counterexample): a later sheet's banner write is determined by its index
in the required list, not by prior progress. -/
theorem C8_progress_phases (arity : Nat) (cols : List String) (rows : List StagedRow)
    (wb : List Sheet) (e : ProcErr) :
    List.Chain' (· ≤ ·) (insertRowsToDb arity cols rows).2.2.2 ∧
    ((processFile wb).result = .error e →
      ∃ t, (processFile wb).trace = t ++ [(0, JobStatus.error)]) := by
  constructor
  · exact (insertAux_writes_chain arity cols rows.length rows 0 0).1
  · intro he
    rcases processFile_cases wb with ⟨e2, _, _, htr, _⟩ | ⟨a, ha, _⟩
    · exact htr
    · rw [ha] at he
      exact absurd he (by simp)

/-- A workbook with one empty required sheet: the job fails at the copy step. -/
def c8WitnessWb : List Sheet := [⟨"FICTICIO", [], []⟩]

/-- A one-row staging batch for the checkpoint-monotonicity part. -/
def c8WitnessRows : List StagedRow :=
  [⟨1, "a", "Empresas I", "p", "RESULTADO", [("Jan/25", 100)]⟩]

/-- Witness for C8 at a concrete batch and a concrete failing workbook. -/
theorem C8_progress_phases_witness :
    List.Chain' (· ≤ ·) (insertRowsToDb 1 ["Jan/25"] c8WitnessRows).2.2.2 ∧
    (∃ t, (processFile c8WitnessWb).trace = t ++ [(0, JobStatus.error)]) := by
  have h := C8_progress_phases 1 ["Jan/25"] c8WitnessRows c8WitnessWb ProcErr.copyNoTable
  exact ⟨h.1, h.2 (by with_unfolding_all rfl)⟩

/-! ### C10: empty required sheets count as found but contribute nothing -/

/-- `stepSheet` reads none of `found`/`trace`: changing them only shifts what
the step appends to them. -/
lemma stepSheet_core_indep (st : ProcState) (f : List String)
    (t : List (ℤ × JobStatus)) (s : Sheet) :
    ∃ f2 t2, stepSheet { st with found := f, trace := t } s =
      { stepSheet st s with found := f2, trace := t2 } := by
  obtain ⟨f0, ad, tb, rws, v, iv, tr0, er⟩ := st
  by_cases hreq : s.name ∈ REQUIRED_SHEETS
  · by_cases hempty : (s.headers.isEmpty || s.rows.isEmpty) = true
    · exact ⟨f ++ [s.name], t ++ [(bannerVal s.name, .processing)],
        by simp [stepSheet, hreq, hempty]⟩
    · cases hp : parseSheetRows s.headers s.rows s.name with
      | error e =>
        exact ⟨f ++ [s.name], t ++ [(bannerVal s.name, .processing)],
          by simp [stepSheet, hreq, hempty, hp]⟩
      | ok parsed =>
        refine ⟨f ++ [s.name], (t ++ [(bannerVal s.name, .processing)]) ++
          (insertRowsToDb (((Option.getD tb (s.headers.filter monthHeaderTest))).length)
            (s.headers.filter monthHeaderTest) parsed).2.2.2.map
              (fun w => (w, JobStatus.processing)), ?_⟩
        simp [stepSheet, hreq, hempty, hp]
  · exact ⟨f, t, by simp [stepSheet, hreq]⟩

/-- The loop's non-`found`/`trace` state is independent of `found`/`trace`. -/
lemma processSheets_core_indep :
    ∀ (l : List Sheet) (st : ProcState) (f : List String) (t : List (ℤ × JobStatus)),
      (processSheets l { st with found := f, trace := t }).allDate =
        (processSheets l st).allDate ∧
      (processSheets l { st with found := f, trace := t }).table =
        (processSheets l st).table ∧
      (processSheets l { st with found := f, trace := t }).rows =
        (processSheets l st).rows ∧
      (processSheets l { st with found := f, trace := t }).valid =
        (processSheets l st).valid ∧
      (processSheets l { st with found := f, trace := t }).invalid =
        (processSheets l st).invalid ∧
      (processSheets l { st with found := f, trace := t }).err =
        (processSheets l st).err := by
  intro l
  induction l with
  | nil => intro st f t; exact ⟨rfl, rfl, rfl, rfl, rfl, rfl⟩
  | cons s rest ih =>
    intro st f t
    by_cases hsome : st.err.isSome
    · rw [processSheets, processSheets, if_pos hsome, if_pos hsome]
      exact ⟨rfl, rfl, rfl, rfl, rfl, rfl⟩
    · rw [processSheets, processSheets, if_neg hsome, if_neg hsome]
      obtain ⟨f2, t2, hstep⟩ := stepSheet_core_indep st f t s
      rw [hstep]
      exact ih (stepSheet st s) f2 t2

/-- A required sheet with no headers or no data rows only records itself as
found and writes its banner. -/
lemma stepSheet_empty (st : ProcState) (s : Sheet)
    (hreq : s.name ∈ REQUIRED_SHEETS) (hempty : s.headers = [] ∨ s.rows = []) :
    stepSheet st s = { st with
      found := st.found ++ [s.name],
      trace := st.trace ++ [(bannerVal s.name, JobStatus.processing)] } := by
  obtain ⟨f0, ad, tb, rws, v, iv, tr0, er⟩ := st
  have hb : (s.headers.isEmpty || s.rows.isEmpty) = true := by
    rcases hempty with h | h <;> simp [h]
  simp [stepSheet, hreq, hb]

lemma processSheets_found_grows :
    ∀ (l : List Sheet) (st : ProcState), st.found <+: (processSheets l st).found := by
  intro l
  induction l with
  | nil => intro st; exact List.prefix_refl _
  | cons s rest ih =>
    intro st
    by_cases hsome : st.err.isSome
    · rw [processSheets, if_pos hsome]
    · rw [processSheets, if_neg hsome]
      refine List.IsPrefix.trans ?_ (ih (stepSheet st s))
      rw [stepSheet_found]
      exact List.prefix_append _ _

/-- C10: a required sheet that is present but has no header row or no data
rows still counts as encountered — the missing-sheets error never lists it —
while it contributes no staged rows, no date columns to the union, and no
staging-table schema: the job state is that of the workbook without it. -/
theorem C10_empty_required_sheet (pre post : List Sheet) (s : Sheet)
    (hreq : s.name ∈ REQUIRED_SHEETS) (hempty : s.headers = [] ∨ s.rows = []) :
    ((processSheets pre initState).err = none →
      s.name ∈ (processFile (pre ++ s :: post)).found) ∧
    (∀ l, (processFile (pre ++ s :: post)).result = .error (.missingSheets l) →
      s.name ∉ l) ∧
    (processFile (pre ++ s :: post)).allDate = (processFile (pre ++ post)).allDate ∧
    (processFile (pre ++ s :: post)).table = (processFile (pre ++ post)).table ∧
    (processFile (pre ++ s :: post)).staged = (processFile (pre ++ post)).staged := by
  obtain ⟨hfound1, hdate1, htab1, hstaged1⟩ := processFile_proj (pre ++ s :: post)
  obtain ⟨hfound2, hdate2, htab2, hstaged2⟩ := processFile_proj (pre ++ post)
  have hsplit1 : processSheets (pre ++ s :: post) initState =
      processSheets (s :: post) (processSheets pre initState) :=
    processSheets_append pre (s :: post) initState
  have hsplit2 : processSheets (pre ++ post) initState =
      processSheets post (processSheets pre initState) :=
    processSheets_append pre post initState
  refine ⟨?_, ?_, ?_, ?_, ?_⟩
  · intro herr
    rw [hfound1, hsplit1, processSheets, if_neg (by rw [herr]; simp),
      stepSheet_empty _ s hreq hempty]
    refine (processSheets_found_grows post _).subset ?_
    simp
  · intro l hl
    obtain ⟨hl2, _⟩ := (C6_missing_sheets (pre ++ s :: post)).2.1 l hl
    rw [hl2]
    intro hmem
    have := List.of_mem_filter hmem
    have hin : (((pre ++ s :: post).map Sheet.name).contains s.name) = true := by
      apply List.elem_iff.mpr
      rw [List.map_append]
      exact List.mem_append_right _ (by simp)
    rw [hin] at this
    exact Bool.noConfusion this
  · rw [hdate1, hdate2, hsplit1, hsplit2]
    by_cases hsome : (processSheets pre initState).err.isSome
    · rw [processSheets, if_pos hsome, processSheets_of_isSome hsome]
    · rw [processSheets, if_neg hsome, stepSheet_empty _ s hreq hempty]
      exact (processSheets_core_indep post (processSheets pre initState) _ _).1
  · rw [htab1, htab2, hsplit1, hsplit2]
    by_cases hsome : (processSheets pre initState).err.isSome
    · rw [processSheets, if_pos hsome, processSheets_of_isSome hsome]
    · rw [processSheets, if_neg hsome, stepSheet_empty _ s hreq hempty]
      exact (processSheets_core_indep post (processSheets pre initState) _ _).2.1
  · rw [hstaged1, hstaged2, hsplit1, hsplit2]
    by_cases hsome : (processSheets pre initState).err.isSome
    · rw [processSheets, if_pos hsome, processSheets_of_isSome hsome]
    · rw [processSheets, if_neg hsome, stepSheet_empty _ s hreq hempty]
      exact (processSheets_core_indep post (processSheets pre initState) _ _).2.2.1

/-- Witness for C10: an empty `CONTABIL` sheet ahead of a data sheet. -/
theorem C10_empty_required_sheet_witness :
    ("CONTABIL" ∈
      (processFile ([] ++ (⟨"CONTABIL", [], []⟩ : Sheet) :: c6WitnessWb)).found) ∧
    (processFile ([] ++ (⟨"CONTABIL", [], []⟩ : Sheet) :: c6WitnessWb)).allDate =
      (processFile ([] ++ c6WitnessWb)).allDate := by
  have h := C10_empty_required_sheet [] c6WitnessWb ⟨"CONTABIL", [], []⟩
    (by decide) (Or.inl rfl)
  exact ⟨h.1 (by with_unfolding_all rfl), h.2.2.1⟩

end FinHub
